import Mathlib

/-!
Verification of the write-offs vs repayments reconciliation core
(src/app.py): the phone-number normaliser `extract_last_nine_digits`,
the aggregate builder `compute_phone_aggregates`, and the join/derive
step of `main` that augments the write-offs frame and computes the KPI
scalars.

Data frames are modelled as named columns with rows of cells. Both
source frames are loaded with `dtype=str`, so loaded cells are strings
or missing (NaN); the derived columns added by the app hold Python ints
and floats, modelled as natural numbers and rationals. Column
assignment follows pandas label semantics: overwrite in place when the
label already exists, append a new column otherwise.
-/

set_option autoImplicit false

namespace WriteOffs

/-- A cell of a data frame: missing (NaN), a string, a Python int, or a
Python float (modelled as a rational). -/
inductive Cell where
  | na : Cell
  | s (v : String) : Cell
  | n (v : ℕ) : Cell
  | q (v : ℚ) : Cell
deriving DecidableEq

/-- `pd.isna` on a cell: true exactly for the missing sentinel. -/
def Cell.isna : Cell → Bool
  | .na => true
  | _ => false

/-- Python `str(value)` as used on cells. A string is itself; an int is
its decimal numeral. A float cell is rendered here as `num/den`; CPython
instead prints a shortest-round-trip decimal that may use scientific
form (see C8) — no claim depends on this case, because the pipeline
loads both frames with `dtype=str` and never normalises a float cell. -/
def Cell.toText : Cell → String
  | .na => "nan"
  | .s v => v
  | .n v => Nat.repr v
  | .q v => Int.repr v.num ++ "/" ++ Nat.repr v.den

/-- The code points of Unicode category Nd (decimal digits) as ranges
of (first code point, length), per Unicode 14.0.0: the class a CPython
`str` pattern's `\d` matches, whose complement `\D` removes. The first
range is the ASCII digits 0-9; every other range is non-ASCII. -/
def ndRanges : List (ℕ × ℕ) :=
  [(48, 10), (1632, 10), (1776, 10), (1984, 10), (2406, 10), (2534, 10),
   (2662, 10), (2790, 10), (2918, 10), (3046, 10), (3174, 10), (3302, 10),
   (3430, 10), (3558, 10), (3664, 10), (3792, 10), (3872, 10), (4160, 10),
   (4240, 10), (6112, 10), (6160, 10), (6470, 10), (6608, 10), (6784, 10),
   (6800, 10), (6992, 10), (7088, 10), (7232, 10), (7248, 10), (42528, 10),
   (43216, 10), (43264, 10), (43472, 10), (43504, 10), (43600, 10),
   (44016, 10), (65296, 10), (66720, 10), (68912, 10), (69734, 10),
   (69872, 10), (69942, 10), (70096, 10), (70384, 10), (70736, 10),
   (70864, 10), (71248, 10), (71360, 10), (71472, 10), (71904, 10),
   (72016, 10), (72784, 10), (73040, 10), (73120, 10), (92768, 10),
   (92864, 10), (93008, 10), (120782, 50), (123200, 10), (123632, 10),
   (125264, 10), (130032, 10)]

/-- Python's `\d` on one character: a Unicode decimal digit, i.e. a
character of category Nd (CPython implements a `str` pattern's `\d` as
the decimal-digit property, which is exactly Nd). -/
def isPyDigit (c : Char) : Bool :=
  ndRanges.any (fun r => decide (r.1 ≤ c.toNat) && decide (c.toNat < r.1 + r.2))

/-- `extract_last_nine_digits` (src/app.py:13-24): `pd.isna` guard, then
`re.sub(r"\D", "", str(value))` — `\D` removes exactly the characters
outside Unicode category Nd, so non-ASCII decimal digits are KEPT — and
the Python slice `digits[-9:]`, which is the whole digit string when it
has fewer than 9 characters. -/
def extract_last_nine_digits (value : Cell) : String :=
  if value.isna then ""
  else
    let digits := value.toText.toList.filter isPyDigit
    ⟨digits.drop (digits.length - 9)⟩

/-- Value of a digit list read as a decimal numeral. -/
def digitsToNat (cs : List Char) : ℕ :=
  cs.foldl (fun a c => 10 * a + (c.toNat - 48)) 0

/-- Exponent tail of a decimal literal: optional sign then digits. -/
def parseSignedExp (cs : List Char) : Option ℤ :=
  match cs with
  | '+' :: ds =>
      if !ds.isEmpty && ds.all Char.isDigit then some (digitsToNat ds) else none
  | '-' :: ds =>
      if !ds.isEmpty && ds.all Char.isDigit then some (-(digitsToNat ds : ℤ)) else none
  | ds =>
      if !ds.isEmpty && ds.all Char.isDigit then some (digitsToNat ds) else none

/-- Remainder after the mantissa: empty, or an `e`/`E` exponent part. -/
def parseExpTail : List Char → Option ℤ
  | [] => some 0
  | 'e' :: rest => parseSignedExp rest
  | 'E' :: rest => parseSignedExp rest
  | _ => none

/-- Scale a mantissa by a signed power of ten. -/
def applyExp (x : ℚ) (e : ℤ) : ℚ := x * (10 : ℚ) ^ e

/-- Unsigned decimal literal: digits, optional fractional digits after a
point, optional exponent; at least one mantissa digit required. -/
def parseUnsigned (cs : List Char) : Option ℚ :=
  let intPart := cs.takeWhile Char.isDigit
  let rest := cs.dropWhile Char.isDigit
  match rest with
  | '.' :: rest2 =>
      let fracPart := rest2.takeWhile Char.isDigit
      let rest3 := rest2.dropWhile Char.isDigit
      if intPart.isEmpty && fracPart.isEmpty then none
      else
        (parseExpTail rest3).map fun e =>
          applyExp ((digitsToNat intPart : ℚ) +
            (digitsToNat fracPart : ℚ) / (10 : ℚ) ^ fracPart.length) e
  | _ =>
      if intPart.isEmpty then none
      else (parseExpTail rest).map fun e => applyExp (digitsToNat intPart : ℚ) e

/-- `pd.to_numeric(text, errors="coerce")` on one string, modelled for
decimal literals: optional sign, digits, optional fraction, optional
exponent; anything else coerces to missing. -/
def parseDecimal (t : String) : Option ℚ :=
  match t.toList with
  | '+' :: cs => parseUnsigned cs
  | '-' :: cs => (parseUnsigned cs).map Neg.neg
  | cs => parseUnsigned cs

/-- `pd.to_numeric(·, errors="coerce")` on a cell: missing stays
missing, strings are parsed as decimal literals, numeric cells pass
through unchanged. -/
def toNumeric? : Cell → Option ℚ
  | .na => none
  | .s v => parseDecimal v
  | .n v => some v
  | .q v => some v

/-- `pd.to_numeric(...).fillna(0.0)` on one cell, as applied to every
amount column: unparseable or missing values become 0.0. -/
def coerceNum (c : Cell) : ℚ := (toNumeric? c).getD 0

/-- A loaded data frame: named columns and rows of cells. -/
structure Table where
  cols : List String
  rows : List (List Cell)
deriving DecidableEq

/-- Every row has exactly one cell per column (frames are rectangular). -/
abbrev Table.Rect (t : Table) : Prop := ∀ r ∈ t.rows, r.length = t.cols.length

/-- Index of the first column with a given label (pandas label lookup). -/
def colIdx (cols : List String) (name : String) : Option ℕ :=
  match cols with
  | [] => none
  | c :: cs => if c = name then some 0 else (colIdx cs name).map (· + 1)

/-- Values of a named column, one cell per row; `none` when absent. -/
def getCol (t : Table) (name : String) : Option (List Cell) :=
  (colIdx t.cols name).map fun i => t.rows.map fun r => r.getD i Cell.na

/-- Column values, defaulting to an all-missing column (only used where
the column is known to be present). -/
def getColD (t : Table) (name : String) : List Cell :=
  (getCol t name).getD (t.rows.map fun _ => Cell.na)

/-- `df[name] = vals` in pandas: overwrite the column in place when the
label exists, append a new last column otherwise. -/
def setCol (t : Table) (name : String) (vals : List Cell) : Table :=
  match colIdx t.cols name with
  | some i => ⟨t.cols, (t.rows.zip vals).map fun p => p.1.set i p.2⟩
  | none => ⟨t.cols ++ [name], (t.rows.zip vals).map fun p => p.1 ++ [p.2]⟩

/-- `df.drop(columns=[name])`; the app only drops a column it has just
created, so the absent case (a no-op here) is never reached. -/
def dropCol (t : Table) (name : String) : Table :=
  match colIdx t.cols name with
  | some i => ⟨t.cols.eraseIdx i, t.rows.map fun r => r.eraseIdx i⟩
  | none => t

/-- One step of `value_counts`: bump the count of key `k`. -/
def bumpCount : List (String × ℕ) → String → List (String × ℕ)
  | [], k => [(k, 1)]
  | (k0, c) :: rest, k =>
      if k0 = k then (k0, c + 1) :: rest else (k0, c) :: bumpCount rest k

/-- `Series.value_counts(dropna=False)` over the normalised keys, as a
key-to-count association table (result order never affects lookups). -/
def value_counts (keys : List String) : List (String × ℕ) :=
  keys.foldl bumpCount []

/-- One step of the grouped sum: add `v` to the bucket of key `k`. -/
def addToSum : List (String × ℚ) → String → ℚ → List (String × ℚ)
  | [], k, v => [(k, v)]
  | (k0, s0) :: rest, k, v =>
      if k0 = k then (k0, s0 + v) :: rest else (k0, s0) :: addToSum rest k v

/-- `groupby("k", dropna=False)["v"].sum()` over (key, amount) pairs. -/
def groupSums (pairs : List (String × ℚ)) : List (String × ℚ) :=
  pairs.foldl (fun acc p => addToSum acc p.1 p.2) []

/-- `counts.get(key, 0)` on the count table: the value at the first
matching key, 0 when the key is absent. -/
def getCount (tbl : List (String × ℕ)) (k : String) : ℕ :=
  match tbl with
  | [] => 0
  | (k0, c) :: rest => if k0 = k then c else getCount rest k

/-- `sums.get(key, 0.0)` on the sum table: the value at the first
matching key, 0.0 when the key is absent. -/
def getSum (tbl : List (String × ℚ)) (k : String) : ℚ :=
  match tbl with
  | [] => 0
  | (k0, s0) :: rest => if k0 = k then s0 else getSum rest k

/-- `compute_phone_aggregates` (src/app.py:35-61): require the two
repayment columns, normalise the phone column, coerce the amount
column, and build the per-key count and sum tables. The position check
at lines 42-48 only emits a warning and changes no data. -/
def compute_phone_aggregates (repayments : Table) :
    Except String (List (String × ℕ) × List (String × ℚ)) :=
  if "Phone Number" ∉ repayments.cols then
    .error "Expected \x27Phone Number\x27 column (column S) in Repayments.xlsx."
  else if "Total Repaid:" ∉ repayments.cols then
    .error "Expected \x27Total Repaid:\x27 column in Repayments.xlsx."
  else
    let keys := (getColD repayments "Phone Number").map extract_last_nine_digits
    let amounts := (getColD repayments "Total Repaid:").map coerceNum
    .ok (value_counts keys, groupSums (keys.zip amounts))

/-- The key read back from the `last9_mobile` helper column; the source
stores plain strings there, so the other cases are unreachable. -/
def Cell.keyStr : Cell → String
  | .s v => v
  | _ => ""

/-- The four KPI scalars of src/app.py:104-112. -/
structure Totals where
  num_writeoffs : ℕ
  total_written_off : ℚ
  total_repaid_for_writeoffs : ℚ
  percent_repaid : ℚ
deriving DecidableEq

/-- The augmentation step of `main` (src/app.py:97-101): attach the
`last9_mobile` helper column, the match-count column and the
amount-repaid column, then drop the helper. The `.copy()` at line 97 is
implicit in the purely functional model. -/
def augmentWriteoffs (counts : List (String × ℕ)) (sums : List (String × ℚ))
    (writeoffs : Table) : Table :=
  let t1 := setCol writeoffs "last9_mobile"
    ((getColD writeoffs "mobile").map fun c => Cell.s (extract_last_nine_digits c))
  let t2 := setCol t1 "Repayment Phone Matches"
    ((getColD t1 "last9_mobile").map fun c => Cell.n (getCount counts c.keyStr))
  let t3 := setCol t2 "amount repayed"
    ((getColD t2 "last9_mobile").map fun c => Cell.q (getSum sums c.keyStr))
  dropCol t3 "last9_mobile"

/-- The analysis step of `main` (src/app.py:78-112), from the two loaded
frames to the augmented write-offs frame and the KPI scalars: build the
aggregates, require the `mobile` column, augment the write-offs frame,
and compute the scalars. File loading and the Streamlit layout around
this step are I/O glue outside the model. -/
def process (repayments writeoffs : Table) : Except String (Table × Totals) :=
  match compute_phone_aggregates repayments with
  | .error e => .error e
  | .ok (counts, sums) =>
    if "mobile" ∉ writeoffs.cols then
      .error "Expected \x27mobile\x27 column (column D) in writeoffs.xlsx."
    else
      let t4 := augmentWriteoffs counts sums writeoffs
      match getCol t4 "Total Writtenoff Derived" with
      | none => .error "Expected \x27Total Writtenoff Derived\x27 column in writeoffs.xlsx."
      | some twd =>
        let total_written_off := (twd.map coerceNum).sum
        let total_repaid := ((getColD t4 "amount repayed").map coerceNum).sum
        let percent :=
          if 0 < total_written_off then total_repaid / total_written_off * 100 else 0
        .ok (t4, ⟨t4.rows.length, total_written_off, total_repaid, percent⟩)

/-- The normalised key of every repayment row, in row order: the mapped
`Phone Number` column of src/app.py:50. -/
def repaymentKeys (rep : Table) : List String :=
  (getColD rep "Phone Number").map extract_last_nine_digits

/-- The coerced amount of every repayment row, in row order: the
`Total Repaid:` column after `pd.to_numeric(...).fillna(0.0)`
(src/app.py:51). -/
def repaymentAmounts (rep : Table) : List ℚ :=
  (getColD rep "Total Repaid:").map coerceNum

/-- The normalised key of every write-off row, in row order: the mapped
`mobile` column of src/app.py:98. -/
def writeoffKeys (w : Table) : List String :=
  (getColD w "mobile").map extract_last_nine_digits

/-! ### Concrete fixtures from the specification scenarios -/

/-- Repayments frame of the end-to-end scenario (two rows, one key). -/
def repFix : Table :=
  ⟨["Phone Number", "Total Repaid:"],
   [[Cell.s "0712345678", Cell.s "100"], [Cell.s "255712345678", Cell.s "50"]]⟩

/-- Write-offs frame of the end-to-end scenario (one row). -/
def wFix : Table :=
  ⟨["mobile", "Total Writtenoff Derived"], [[Cell.s "+255712345678", Cell.s "200"]]⟩

/-- The augmented frame the pipeline produces on the scenario. -/
def augFix : Table :=
  ⟨["mobile", "Total Writtenoff Derived", "Repayment Phone Matches", "amount repayed"],
   [[Cell.s "+255712345678", Cell.s "200", Cell.n 2, Cell.q 150]]⟩

/-- The scenario KPI scalars. -/
def totFix : Totals := ⟨1, 200, 150, 75⟩

/-- Write-offs frame with an extra row whose phone matches no repayment. -/
def wFixNine : Table :=
  ⟨["mobile", "Total Writtenoff Derived"],
   [[Cell.s "+255712345678", Cell.s "200"], [Cell.s "N/A", Cell.s "30"]]⟩

/-- Augmented frame for `wFixNine` against `repFix`. -/
def augFixNine : Table :=
  ⟨["mobile", "Total Writtenoff Derived", "Repayment Phone Matches", "amount repayed"],
   [[Cell.s "+255712345678", Cell.s "200", Cell.n 2, Cell.q 150],
    [Cell.s "N/A", Cell.s "30", Cell.n 0, Cell.q 0]]⟩

/-- KPI scalars for `wFixNine` against `repFix`. -/
def totFixNine : Totals := ⟨2, 230, 150, 1500 / 23⟩

/-- A single repayment row. -/
def repFixTen : Table :=
  ⟨["Phone Number", "Total Repaid:"], [[Cell.s "0712345678", Cell.s "100"]]⟩

/-- Two write-off rows that share one normalised key. -/
def wFixTen : Table :=
  ⟨["mobile", "Total Writtenoff Derived"],
   [[Cell.s "0712345678", Cell.s "50"], [Cell.s "255712345678", Cell.s "50"]]⟩

/-- Augmented frame for `wFixTen` against `repFixTen`. -/
def augFixTen : Table :=
  ⟨["mobile", "Total Writtenoff Derived", "Repayment Phone Matches", "amount repayed"],
   [[Cell.s "0712345678", Cell.s "50", Cell.n 1, Cell.q 100],
    [Cell.s "255712345678", Cell.s "50", Cell.n 1, Cell.q 100]]⟩

/-- KPI scalars for `wFixTen` against `repFixTen`: percent repaid is 200. -/
def totFixTen : Totals := ⟨2, 100, 200, 200⟩

/-- A write-offs frame that already carries a column named
`Repayment Phone Matches`; pandas assignment then overwrites it in place
instead of appending a new column. -/
def wFixSeven : Table :=
  ⟨["mobile", "Total Writtenoff Derived", "Repayment Phone Matches"],
   [[Cell.s "0712345678", Cell.s "50", Cell.s "old"]]⟩

/-- What the pipeline produces on `wFixSeven` against `repFixTen`. -/
def augFixSeven : Table :=
  ⟨["mobile", "Total Writtenoff Derived", "Repayment Phone Matches", "amount repayed"],
   [[Cell.s "0712345678", Cell.s "50", Cell.n 1, Cell.q 100]]⟩

/-- KPI scalars for `wFixSeven` against `repFixTen`. -/
def totFixSeven : Totals := ⟨1, 50, 100, 200⟩

/-- A repayments frame without the phone column. -/
def repNoPhone : Table := ⟨["Total Repaid:"], []⟩

/-- A repayments frame without the amount column. -/
def repNoAmount : Table := ⟨["Phone Number"], []⟩

/-- A write-offs frame without the mobile column. -/
def wNoMobile : Table := ⟨["Total Writtenoff Derived"], []⟩

/-! ### Characterisation of the aggregate tables -/

theorem getCount_bumpCount (acc : List (String × ℕ)) (k j : String) :
    getCount (bumpCount acc k) j = getCount acc j + (if k = j then 1 else 0) := by
  induction acc with
  | nil =>
      by_cases h : k = j <;> simp [bumpCount, getCount, h]
  | cons p rest ih =>
      obtain ⟨k0, c⟩ := p
      by_cases h0 : k0 = k
      · subst h0
        by_cases hj : k0 = j <;> simp [bumpCount, getCount, hj]
      · by_cases hj : k0 = j
        · subst hj
          have hk : ¬ k = k0 := fun e => h0 e.symm
          simp [bumpCount, getCount, h0, hk]
        · simpa [bumpCount, getCount, h0, hj] using ih

theorem getCount_foldl (keys : List String) (acc : List (String × ℕ)) (j : String) :
    getCount (keys.foldl bumpCount acc) j
      = getCount acc j + (keys.filter (fun x => x = j)).length := by
  induction keys generalizing acc with
  | nil => simp
  | cons k rest ih =>
      by_cases h : k = j
      all_goals simp [List.foldl_cons, ih, getCount_bumpCount, h, List.filter_cons]
      all_goals omega

/-- `counts.get(key, 0)` on the table built by `value_counts` is exactly
the number of repayment keys equal to `key`. -/
theorem getCount_value_counts (keys : List String) (j : String) :
    getCount (value_counts keys) j = (keys.filter (fun x => x = j)).length := by
  simpa [value_counts, getCount] using getCount_foldl keys [] j

theorem getSum_addToSum (acc : List (String × ℚ)) (k : String) (v : ℚ) (j : String) :
    getSum (addToSum acc k v) j = getSum acc j + (if k = j then v else 0) := by
  induction acc with
  | nil =>
      by_cases h : k = j <;> simp [addToSum, getSum, h]
  | cons p rest ih =>
      obtain ⟨k0, s0⟩ := p
      by_cases h0 : k0 = k
      · subst h0
        by_cases hj : k0 = j <;> simp [addToSum, getSum, hj]
      · by_cases hj : k0 = j
        · subst hj
          have hk : ¬ k = k0 := fun e => h0 e.symm
          simp [addToSum, getSum, h0, hk]
        · simpa [addToSum, getSum, h0, hj] using ih

theorem getSum_foldl (pairs : List (String × ℚ)) (acc : List (String × ℚ)) (j : String) :
    getSum (pairs.foldl (fun a p => addToSum a p.1 p.2) acc) j
      = getSum acc j + ((pairs.filter (fun p => p.1 = j)).map Prod.snd).sum := by
  induction pairs generalizing acc with
  | nil => simp
  | cons p rest ih =>
      by_cases h : p.1 = j <;>
        simp [List.foldl_cons, ih, getSum_addToSum, h, List.filter_cons, add_assoc]

/-- `sums.get(key, 0.0)` on the table built by the grouped sum is exactly
the sum of the amounts whose key equals `key`. -/
theorem getSum_groupSums (pairs : List (String × ℚ)) (j : String) :
    getSum (groupSums pairs) j
      = ((pairs.filter (fun p => p.1 = j)).map Prod.snd).sum := by
  simpa [groupSums, getSum] using getSum_foldl pairs [] j

theorem countsTotal_bumpCount (acc : List (String × ℕ)) (k : String) :
    ((bumpCount acc k).map Prod.snd).sum = ((acc.map Prod.snd).sum) + 1 := by
  induction acc with
  | nil => simp [bumpCount]
  | cons p rest ih =>
      obtain ⟨k0, c⟩ := p
      by_cases h : k0 = k <;> simp [bumpCount, h, ih] <;> omega

theorem countsTotal_foldl (keys : List String) (acc : List (String × ℕ)) :
    (((keys.foldl bumpCount acc).map Prod.snd).sum)
      = ((acc.map Prod.snd).sum) + keys.length := by
  induction keys generalizing acc with
  | nil => simp
  | cons k rest ih => simp [List.foldl_cons, ih, countsTotal_bumpCount]; omega

/-- The values of the count table sum to the number of keys counted. -/
theorem countsTotal_value_counts (keys : List String) :
    (((value_counts keys).map Prod.snd).sum) = keys.length := by
  simpa [value_counts] using countsTotal_foldl keys []

/-! ### Column and row shape lemmas -/

theorem colIdx_eq_none (cols : List String) (name : String) (h : name ∉ cols) :
    colIdx cols name = none := by
  induction cols with
  | nil => rfl
  | cons c cs ih =>
      simp only [List.mem_cons, not_or] at h
      have hc : ¬ c = name := fun e => h.1 e.symm
      simp [colIdx, hc, ih h.2]

theorem colIdx_append_self (cols : List String) (name : String) (rest : List String)
    (h : name ∉ cols) :
    colIdx (cols ++ name :: rest) name = some cols.length := by
  induction cols with
  | nil => simp [colIdx]
  | cons c cs ih =>
      simp only [List.mem_cons, not_or] at h
      have hc : ¬ c = name := fun e => h.1 e.symm
      simp [colIdx, hc, ih h.2]

theorem colIdx_append_left (cols : List String) (name : String) (rest : List String)
    (i : ℕ) (h : colIdx cols name = some i) :
    colIdx (cols ++ rest) name = some i := by
  induction cols generalizing i with
  | nil => simp [colIdx] at h
  | cons c cs ih =>
      by_cases hc : c = name
      · simp only [colIdx, if_pos hc] at h ⊢
        exact h
      · simp only [colIdx, if_neg hc] at h ⊢
        cases hcs : colIdx cs name with
        | none => rw [hcs] at h; simp at h
        | some j =>
            rw [hcs] at h
            simp only [Option.map_some'] at h
            show Option.map (fun x => x + 1) (colIdx (cs ++ rest) name) = some i
            rw [ih j hcs, Option.map_some']
            exact h

theorem getColD_length (t : Table) (name : String) :
    (getColD t name).length = t.rows.length := by
  unfold getColD getCol
  cases h : colIdx t.cols name <;> simp [h]

theorem getD_append_length (r l : List Cell) (d : Cell) :
    (r ++ l).getD r.length d = l.getD 0 d := by
  induction r with
  | nil => rfl
  | cons c cs ih => simpa using ih

theorem getD_append_lt (r l : List Cell) (d : Cell) (i : ℕ) (h : i < r.length) :
    (r ++ l).getD i d = r.getD i d := by
  induction r generalizing i with
  | nil => simp at h
  | cons c cs ih =>
      cases i with
      | zero => rfl
      | succ i => simpa using ih i (by simpa using h)

theorem getD_append_add (r l : List Cell) (d : Cell) (i : ℕ) :
    (r ++ l).getD (r.length + i) d = l.getD i d := by
  induction r with
  | nil => simp
  | cons c cs ih => simpa [Nat.succ_add] using ih

theorem map_getD_zip2_fst (f g : String → Cell) (rows : List (List Cell))
    (ks : List String) (n : ℕ)
    (hlen : ∀ r ∈ rows, r.length = n) (hv : rows.length = ks.length) :
    (((rows.zip ks).map (fun p => p.1 ++ [f p.2, g p.2])).map
        (fun r => r.getD n Cell.na))
      = ks.map f := by
  induction rows generalizing ks with
  | nil => cases ks with | nil => rfl | cons k ks => simp at hv
  | cons r rs ih =>
      cases ks with
      | nil => simp at hv
      | cons k ks =>
          have hr : r.length = n := hlen r (by simp)
          have hd : (r ++ [f k, g k]).getD n Cell.na = f k := by
            rw [← hr]; simpa using getD_append_add r [f k, g k] Cell.na 0
          simp only [List.zip_cons_cons, List.map_cons, hd]
          rw [ih ks (fun x hx => hlen x (by simp [hx])) (by simpa using hv)]

theorem map_getD_zip2_snd (f g : String → Cell) (rows : List (List Cell))
    (ks : List String) (n : ℕ)
    (hlen : ∀ r ∈ rows, r.length = n) (hv : rows.length = ks.length) :
    (((rows.zip ks).map (fun p => p.1 ++ [f p.2, g p.2])).map
        (fun r => r.getD (n + 1) Cell.na))
      = ks.map g := by
  induction rows generalizing ks with
  | nil => cases ks with | nil => rfl | cons k ks => simp at hv
  | cons r rs ih =>
      cases ks with
      | nil => simp at hv
      | cons k ks =>
          have hr : r.length = n := hlen r (by simp)
          have hd : (r ++ [f k, g k]).getD (n + 1) Cell.na = g k := by
            rw [← hr]; simpa using getD_append_add r [f k, g k] Cell.na 1
          simp only [List.zip_cons_cons, List.map_cons, hd]
          rw [ih ks (fun x hx => hlen x (by simp [hx])) (by simpa using hv)]

theorem zipAppend_lengths (rows : List (List Cell)) (vals : List Cell) (n : ℕ)
    (hlen : ∀ r ∈ rows, r.length = n) :
    ∀ r ∈ (rows.zip vals).map (fun p => p.1 ++ [p.2]), r.length = n + 1 := by
  intro r hr
  simp only [List.mem_map] at hr
  obtain ⟨p, hp, rfl⟩ := hr
  have h1 := (List.of_mem_zip hp).1
  simp [hlen p.1 h1]

theorem map_getD_zipAppend_self (rows : List (List Cell)) (vals : List Cell) (n : ℕ)
    (hlen : ∀ r ∈ rows, r.length = n) (hv : rows.length = vals.length) :
    (((rows.zip vals).map fun p => p.1 ++ [p.2]).map fun r => r.getD n Cell.na)
      = vals := by
  induction rows generalizing vals with
  | nil => cases vals with | nil => rfl | cons v vs => simp at hv
  | cons r rs ih =>
      cases vals with
      | nil => simp at hv
      | cons v vs =>
          have hr : r.length = n := hlen r (by simp)
          have hd : (r ++ [v]).getD n Cell.na = v := by
            rw [← hr, getD_append_length]
            rfl
          simp only [List.zip_cons_cons, List.map_cons, hd]
          rw [ih vs (fun x hx => hlen x (by simp [hx])) (by simpa using hv)]

theorem map_getD_zipAppend_lt (rows : List (List Cell)) (vals : List Cell) (n i : ℕ)
    (hlen : ∀ r ∈ rows, r.length = n) (hv : rows.length = vals.length) (hi : i < n) :
    (((rows.zip vals).map fun p => p.1 ++ [p.2]).map fun r => r.getD i Cell.na)
      = rows.map fun r => r.getD i Cell.na := by
  induction rows generalizing vals with
  | nil => cases vals with | nil => rfl | cons v vs => simp at hv
  | cons r rs ih =>
      cases vals with
      | nil => simp at hv
      | cons v vs =>
          have hr : r.length = n := hlen r (by simp)
          have hd : (r ++ [v]).getD i Cell.na = r.getD i Cell.na :=
            getD_append_lt r [v] Cell.na i (by omega)
          simp only [List.zip_cons_cons, List.map_cons, hd]
          rw [ih vs (fun x hx => hlen x (by simp [hx])) (by simpa using hv)]

theorem zipAppend3_erase (counts : List (String × ℕ)) (sums : List (String × ℚ))
    (rows : List (List Cell)) (ks : List String) (n : ℕ)
    (hlen : ∀ r ∈ rows, r.length = n) (hv : rows.length = ks.length) :
    (((((((rows.zip (ks.map Cell.s)).map (fun p => p.1 ++ [p.2])).zip
          (ks.map (fun k => Cell.n (getCount counts k)))).map (fun p => p.1 ++ [p.2])).zip
        (ks.map (fun k => Cell.q (getSum sums k)))).map (fun p => p.1 ++ [p.2])).map
          (fun r => r.eraseIdx n))
      = (rows.zip ks).map (fun p =>
          p.1 ++ [Cell.n (getCount counts p.2), Cell.q (getSum sums p.2)]) := by
  induction rows generalizing ks with
  | nil => cases ks with | nil => rfl | cons k ks => simp at hv
  | cons r rs ih =>
      cases ks with
      | nil => simp at hv
      | cons k ks =>
          have hr : r.length = n := hlen r (by simp)
          have herase :
              (((r ++ [Cell.s k]) ++ [Cell.n (getCount counts k)]) ++
                  [Cell.q (getSum sums k)]).eraseIdx n
                = r ++ [Cell.n (getCount counts k), Cell.q (getSum sums k)] := by
            have hassoc :
                ((r ++ [Cell.s k]) ++ [Cell.n (getCount counts k)]) ++
                    [Cell.q (getSum sums k)]
                  = r ++ [Cell.s k, Cell.n (getCount counts k),
                      Cell.q (getSum sums k)] := by
              simp
            rw [hassoc, ← hr]
            rw [List.eraseIdx_append_of_length_le (Nat.le_refl r.length)]
            simp
          simp only [List.map_cons, List.zip_cons_cons, List.map_cons, herase]
          rw [ih ks (fun x hx => hlen x (by simp [hx])) (by simpa using hv)]

/-! ### The augmentation step, characterised -/

/-- When the three derived column names are fresh and the input frame is
rectangular, `augmentWriteoffs` appends exactly the match-count column
and the amount-repaid column, each row keyed by its own normalised
mobile number, and leaves every original cell in place. -/
theorem augmentWriteoffs_spec (counts : List (String × ℕ)) (sums : List (String × ℚ))
    (w : Table) (hrect : w.Rect)
    (f1 : "last9_mobile" ∉ w.cols) (f2 : "Repayment Phone Matches" ∉ w.cols)
    (f3 : "amount repayed" ∉ w.cols) :
    augmentWriteoffs counts sums w =
      ⟨w.cols ++ ["Repayment Phone Matches", "amount repayed"],
       (w.rows.zip ((getColD w "mobile").map extract_last_nine_digits)).map (fun p =>
         p.1 ++ [Cell.n (getCount counts p.2), Cell.q (getSum sums p.2)])⟩ := by
  set ks := (getColD w "mobile").map extract_last_nine_digits with hks
  have hkm : ks.length = w.rows.length := by
    rw [hks, List.length_map, getColD_length]
  have hv1 : (getColD w "mobile").map (fun c => Cell.s (extract_last_nine_digits c))
      = ks.map Cell.s := by
    rw [hks, List.map_map]; rfl
  have ht1 : setCol w "last9_mobile" (ks.map Cell.s)
      = Table.mk (w.cols ++ ["last9_mobile"])
          ((w.rows.zip (ks.map Cell.s)).map (fun p => p.1 ++ [p.2])) := by
    simp [setCol, colIdx_eq_none _ _ f1]
  have hidx1 : colIdx (w.cols ++ ["last9_mobile"]) "last9_mobile"
      = some w.cols.length := colIdx_append_self w.cols "last9_mobile" [] f1
  have hlen1 : ∀ r ∈ (w.rows.zip (ks.map Cell.s)).map (fun p => p.1 ++ [p.2]),
      r.length = w.cols.length + 1 :=
    zipAppend_lengths w.rows (ks.map Cell.s) w.cols.length hrect
  have hm1 : w.rows.length = (ks.map Cell.s).length := by simp [hkm]
  have hread1 : getColD (Table.mk (w.cols ++ ["last9_mobile"])
        ((w.rows.zip (ks.map Cell.s)).map (fun p => p.1 ++ [p.2]))) "last9_mobile"
      = ks.map Cell.s := by
    simp only [getColD, getCol, hidx1, Option.map_some', Option.getD_some]
    exact map_getD_zipAppend_self w.rows (ks.map Cell.s) w.cols.length hrect hm1
  have hcnt : (ks.map Cell.s).map (fun c => Cell.n (getCount counts c.keyStr))
      = ks.map (fun k => Cell.n (getCount counts k)) := by
    rw [List.map_map]; rfl
  have hfresh2 : "Repayment Phone Matches" ∉ w.cols ++ ["last9_mobile"] := by
    simp only [List.mem_append, List.mem_singleton]
    push_neg
    exact ⟨f2, by decide⟩
  have ht2 : setCol (Table.mk (w.cols ++ ["last9_mobile"])
        ((w.rows.zip (ks.map Cell.s)).map (fun p => p.1 ++ [p.2])))
        "Repayment Phone Matches" (ks.map (fun k => Cell.n (getCount counts k)))
      = Table.mk (w.cols ++ ["last9_mobile", "Repayment Phone Matches"])
          ((((w.rows.zip (ks.map Cell.s)).map (fun p => p.1 ++ [p.2])).zip
              (ks.map (fun k => Cell.n (getCount counts k)))).map
            (fun p => p.1 ++ [p.2])) := by
    simp [setCol, colIdx_eq_none _ _ hfresh2]
  have hidx2 : colIdx (w.cols ++ ["last9_mobile", "Repayment Phone Matches"])
      "last9_mobile" = some w.cols.length :=
    colIdx_append_self w.cols "last9_mobile" ["Repayment Phone Matches"] f1
  have hm2 : ((w.rows.zip (ks.map Cell.s)).map (fun p => p.1 ++ [p.2])).length
      = (ks.map (fun k => Cell.n (getCount counts k))).length := by
    simp [hkm]
  have hread2 : getColD (Table.mk (w.cols ++ ["last9_mobile", "Repayment Phone Matches"])
        ((((w.rows.zip (ks.map Cell.s)).map (fun p => p.1 ++ [p.2])).zip
            (ks.map (fun k => Cell.n (getCount counts k)))).map
          (fun p => p.1 ++ [p.2]))) "last9_mobile"
      = ks.map Cell.s := by
    simp only [getColD, getCol, hidx2, Option.map_some', Option.getD_some]
    rw [map_getD_zipAppend_lt _ _ (w.cols.length + 1) w.cols.length hlen1 hm2
      (Nat.lt_succ_self _)]
    exact map_getD_zipAppend_self w.rows (ks.map Cell.s) w.cols.length hrect hm1
  have hamt : (ks.map Cell.s).map (fun c => Cell.q (getSum sums c.keyStr))
      = ks.map (fun k => Cell.q (getSum sums k)) := by
    rw [List.map_map]; rfl
  have hfresh3 : "amount repayed"
      ∉ w.cols ++ ["last9_mobile", "Repayment Phone Matches"] := by
    simp only [List.mem_append, List.mem_cons, List.mem_singleton]
    push_neg
    exact ⟨f3, by decide, by decide⟩
  have ht3 : setCol (Table.mk (w.cols ++ ["last9_mobile", "Repayment Phone Matches"])
        ((((w.rows.zip (ks.map Cell.s)).map (fun p => p.1 ++ [p.2])).zip
            (ks.map (fun k => Cell.n (getCount counts k)))).map
          (fun p => p.1 ++ [p.2])))
        "amount repayed" (ks.map (fun k => Cell.q (getSum sums k)))
      = Table.mk (w.cols
            ++ ["last9_mobile", "Repayment Phone Matches", "amount repayed"])
          (((((((w.rows.zip (ks.map Cell.s)).map (fun p => p.1 ++ [p.2])).zip
              (ks.map (fun k => Cell.n (getCount counts k)))).map
            (fun p => p.1 ++ [p.2]))).zip
              (ks.map (fun k => Cell.q (getSum sums k)))).map
            (fun p => p.1 ++ [p.2])) := by
    simp [setCol, colIdx_eq_none _ _ hfresh3]
  have hidx3 : colIdx (w.cols
        ++ ["last9_mobile", "Repayment Phone Matches", "amount repayed"])
      "last9_mobile" = some w.cols.length :=
    colIdx_append_self w.cols "last9_mobile"
      ["Repayment Phone Matches", "amount repayed"] f1
  show dropCol (setCol (setCol (setCol w "last9_mobile"
      ((getColD w "mobile").map (fun c => Cell.s (extract_last_nine_digits c))))
      "Repayment Phone Matches" _) "amount repayed" _) "last9_mobile" = _
  rw [hv1, ht1, hread1, hcnt, ht2, hread2, hamt, ht3]
  simp only [dropCol, hidx3]
  have hcols : ((w.cols
        ++ ["last9_mobile", "Repayment Phone Matches", "amount repayed"]).eraseIdx
          w.cols.length)
      = w.cols ++ ["Repayment Phone Matches", "amount repayed"] := by
    rw [List.eraseIdx_append_of_length_le (Nat.le_refl w.cols.length)]
    simp
  rw [hcols]
  rw [zipAppend3_erase counts sums w.rows ks w.cols.length hrect (by omega)]

/-! ### Inversion of the success paths -/

theorem compute_ok_inv (rep : Table) (counts : List (String × ℕ))
    (sums : List (String × ℚ))
    (h : compute_phone_aggregates rep = .ok (counts, sums)) :
    counts = value_counts ((getColD rep "Phone Number").map extract_last_nine_digits)
      ∧ sums = groupSums
          (((getColD rep "Phone Number").map extract_last_nine_digits).zip
            ((getColD rep "Total Repaid:").map coerceNum)) := by
  unfold compute_phone_aggregates at h
  by_cases hp : "Phone Number" ∈ rep.cols
  · rw [if_neg (not_not_intro hp)] at h
    by_cases ht : "Total Repaid:" ∈ rep.cols
    · rw [if_neg (not_not_intro ht)] at h
      injection h with h
      injection h with h1 h2
      exact ⟨h1.symm, h2.symm⟩
    · rw [if_pos ht] at h
      cases h
  · rw [if_pos hp] at h
    cases h

theorem process_ok_inv (rep w : Table) (aug : Table) (tot : Totals)
    (hok : process rep w = .ok (aug, tot)) :
    ∃ counts sums, compute_phone_aggregates rep = .ok (counts, sums)
      ∧ "mobile" ∈ w.cols
      ∧ aug = augmentWriteoffs counts sums w
      ∧ ∃ twd, getCol aug "Total Writtenoff Derived" = some twd
        ∧ tot = ⟨aug.rows.length, (twd.map coerceNum).sum,
            ((getColD aug "amount repayed").map coerceNum).sum,
            if 0 < (twd.map coerceNum).sum
            then ((getColD aug "amount repayed").map coerceNum).sum
              / (twd.map coerceNum).sum * 100
            else 0⟩ := by
  unfold process at hok
  cases hagg : compute_phone_aggregates rep with
  | error e => rw [hagg] at hok; cases hok
  | ok cs =>
      obtain ⟨counts, sums⟩ := cs
      rw [hagg] at hok
      dsimp only at hok
      by_cases hm : "mobile" ∈ w.cols
      · rw [if_neg (not_not_intro hm)] at hok
        cases htwd : getCol (augmentWriteoffs counts sums w) "Total Writtenoff Derived" with
        | none => rw [htwd] at hok; cases hok
        | some twd =>
            rw [htwd] at hok
            injection hok with hok
            injection hok with h1 h2
            refine ⟨counts, sums, rfl, hm, h1.symm, twd, ?_, ?_⟩
            · rw [← h1]; exact htwd
            · rw [← h1, ← h2]
      · rw [if_pos hm] at hok
        cases hok

/-! ### Small helpers on key filters -/

theorem filter_eq_key_nil (keys : List String) (k : String) (hk : k ∉ keys) :
    keys.filter (fun x => x = k) = [] := by
  induction keys with
  | nil => rfl
  | cons a rest ih =>
      simp only [List.mem_cons, not_or] at hk
      have ha : ¬ a = k := fun e => hk.1 e.symm
      simp [List.filter_cons, ha, ih hk.2]

theorem filter_zip_key_nil (keys : List String) (amts : List ℚ) (k : String)
    (hk : k ∉ keys) :
    (keys.zip amts).filter (fun p => p.1 = k) = [] := by
  cases hfil : (keys.zip amts).filter (fun p => p.1 = k) with
  | nil => rfl
  | cons p rest =>
      have hp : p ∈ (keys.zip amts).filter (fun q => q.1 = k) := by
        rw [hfil]; simp
      have h1 := List.mem_filter.mp hp
      obtain ⟨a, b⟩ := p
      have h2 : a ∈ keys := (List.of_mem_zip h1.1).1
      have h3 : a = k := of_decide_eq_true h1.2
      exact absurd (h3 ▸ h2) hk

/-- The match-count column of the augmented frame, under the freshness
and rectangularity hypotheses. -/
theorem augment_getCol_matches (counts : List (String × ℕ)) (sums : List (String × ℚ))
    (w : Table) (hrect : w.Rect)
    (f1 : "last9_mobile" ∉ w.cols) (f2 : "Repayment Phone Matches" ∉ w.cols)
    (f3 : "amount repayed" ∉ w.cols) :
    getCol (augmentWriteoffs counts sums w) "Repayment Phone Matches"
      = some ((writeoffKeys w).map (fun k => Cell.n (getCount counts k))) := by
  rw [augmentWriteoffs_spec counts sums w hrect f1 f2 f3]
  have hidx : colIdx (w.cols ++ ["Repayment Phone Matches", "amount repayed"])
      "Repayment Phone Matches" = some w.cols.length :=
    colIdx_append_self w.cols _ ["amount repayed"] f2
  have hvlen : w.rows.length
      = ((getColD w "mobile").map extract_last_nine_digits).length := by
    simp [getColD_length]
  simp only [getCol, hidx, Option.map_some']
  rw [map_getD_zip2_fst (fun k => Cell.n (getCount counts k))
    (fun k => Cell.q (getSum sums k)) w.rows _ w.cols.length hrect hvlen]
  rfl

/-- The amount-repaid column of the augmented frame, under the freshness
and rectangularity hypotheses. -/
theorem augment_getCol_amount (counts : List (String × ℕ)) (sums : List (String × ℚ))
    (w : Table) (hrect : w.Rect)
    (f1 : "last9_mobile" ∉ w.cols) (f2 : "Repayment Phone Matches" ∉ w.cols)
    (f3 : "amount repayed" ∉ w.cols) :
    getCol (augmentWriteoffs counts sums w) "amount repayed"
      = some ((writeoffKeys w).map (fun k => Cell.q (getSum sums k))) := by
  rw [augmentWriteoffs_spec counts sums w hrect f1 f2 f3]
  have f3' : "amount repayed" ∉ w.cols ++ ["Repayment Phone Matches"] := by
    simp only [List.mem_append, List.mem_singleton]
    push_neg
    exact ⟨f3, by decide⟩
  have hassoc : w.cols ++ ["Repayment Phone Matches", "amount repayed"]
      = (w.cols ++ ["Repayment Phone Matches"]) ++ ["amount repayed"] := by
    simp
  have hidx : colIdx (w.cols ++ ["Repayment Phone Matches", "amount repayed"])
      "amount repayed" = some (w.cols.length + 1) := by
    rw [hassoc]
    have h := colIdx_append_self (w.cols ++ ["Repayment Phone Matches"])
      "amount repayed" [] f3'
    simpa using h
  have hvlen : w.rows.length
      = ((getColD w "mobile").map extract_last_nine_digits).length := by
    simp [getColD_length]
  simp only [getCol, hidx, Option.map_some']
  rw [map_getD_zip2_snd (fun k => Cell.n (getCount counts k))
    (fun k => Cell.q (getSum sums k)) w.rows _ w.cols.length hrect hvlen]
  rfl

/-! ### The claims -/

/-- C1 fails as stated: Python's `\D` keeps every Unicode decimal
digit, not only 0-9. On the Arabic-Indic digits ٣٣٣ (three times
U+0663) the code returns the input unchanged, and that output is not
made of 0-9 characters. -/
theorem c1_counterexample :
    extract_last_nine_digits (Cell.s "٣٣٣") = "٣٣٣"
    ∧ (extract_last_nine_digits (Cell.s "٣٣٣")).toList.all Char.isDigit
        = false :=
  ⟨by decide, by decide⟩

/-- C1 (amended): for every input value, `extract_last_nine_digits`
returns a string of Unicode decimal-digit characters (category Nd, the
class of Python's `\d`, whose ASCII members are 0-9) of length at most
9; a missing value yields the empty string; and on the two spec
examples it keeps the LAST nine digits, dropping the country code. -/
theorem c1_normalize_unicode_digits (v : Cell) :
    (extract_last_nine_digits v).toList.all isPyDigit = true
    ∧ (extract_last_nine_digits v).length ≤ 9
    ∧ extract_last_nine_digits Cell.na = ""
    ∧ extract_last_nine_digits (Cell.s "555-123-4567") = "551234567"
    ∧ extract_last_nine_digits (Cell.s "+1 555 123 4567") = "551234567" := by
  refine ⟨?_, ?_, rfl, by decide, by decide⟩
  · unfold extract_last_nine_digits
    by_cases h : v.isna
    · rw [if_pos h]; rfl
    · rw [if_neg h]
      rw [List.all_eq_true]
      intro c hc
      have hc2 : c ∈ v.toText.toList.filter isPyDigit :=
        List.drop_subset _ _ hc
      exact (List.mem_filter.mp hc2).2
  · unfold extract_last_nine_digits
    by_cases h : v.isna
    · rw [if_pos h]; decide
    · rw [if_neg h]
      show ((v.toText.toList.filter isPyDigit).drop
        ((v.toText.toList.filter isPyDigit).length - 9)).length ≤ 9
      rw [List.length_drop]
      omega

/-- C2: the end-to-end scenario. Both repayment phones normalise to
712345678, the count table gives 2 and the sum table 150 at that key,
the one write-off row (key 712345678 after dropping +255) gets match
count 2 and amount repaid 150, and the scalars are 200 / 150 / 75. -/
theorem c2_end_to_end :
    extract_last_nine_digits (Cell.s "0712345678") = "712345678"
    ∧ extract_last_nine_digits (Cell.s "255712345678") = "712345678"
    ∧ extract_last_nine_digits (Cell.s "+255712345678") = "712345678"
    ∧ compute_phone_aggregates repFix
        = .ok ([("712345678", 2)], [("712345678", 150)])
    ∧ getCount [("712345678", 2)] "712345678" = 2
    ∧ getSum [("712345678", 150)] "712345678" = 150
    ∧ process repFix wFix = .ok (augFix, totFix)
    ∧ getCol augFix "Repayment Phone Matches" = some [Cell.n 2]
    ∧ getCol augFix "amount repayed" = some [Cell.q 150]
    ∧ totFix.total_written_off = 200
    ∧ totFix.total_repaid_for_writeoffs = 150
    ∧ totFix.percent_repaid = 75 := by
  refine ⟨by decide, by decide, by decide, by with_unfolding_all rfl, by decide,
    by with_unfolding_all rfl, by with_unfolding_all rfl, by with_unfolding_all rfl,
    by with_unfolding_all rfl, rfl, rfl, rfl⟩

/-- C8 (code bug): `extract_last_nine_digits` just calls `str(value)`
with no special case for exponential notation. CPython renders the float
1e16 as the text 1e+16; stripping the non-digits of that text keeps only
116, silently losing digits, where the spec requires exponential
notation to be rejected or special-cased. -/
theorem c8_exponential_text_truncated :
    extract_last_nine_digits (Cell.s "1e+16") = "116" := by decide

/-- C10: percent repaid can exceed 100. Two write-off rows that share a
normalised key are each attached the full per-key repayment sum, so the
total repaid double-counts those repayments. -/
theorem c10_percent_can_exceed_100 :
    process repFixTen wFixTen = Except.ok (augFixTen, totFixTen)
    ∧ (100 : ℚ) < totFixTen.percent_repaid := by
  constructor
  · with_unfolding_all rfl
  · show (100 : ℚ) < 200
    norm_num

/-- C4: the aggregate tables conserve rows. The values of the count
table built by `compute_phone_aggregates` sum to the number of repayment
rows: every row lands in exactly one key bucket (unparseable amounts are
coerced, empty keys are counted) and none is discarded. -/
theorem c4_counts_conserve_rows (rep : Table) (counts : List (String × ℕ))
    (sums : List (String × ℚ))
    (h : compute_phone_aggregates rep = .ok (counts, sums)) :
    (counts.map Prod.snd).sum = rep.rows.length := by
  obtain ⟨hc, -⟩ := compute_ok_inv rep counts sums h
  rw [hc, countsTotal_value_counts, List.length_map, getColD_length]

/-- Witness for C4 at the scenario fixture: two rows, counts sum to 2. -/
theorem c4_witness :
    compute_phone_aggregates repFix
        = Except.ok ([("712345678", 2)], [("712345678", 150)])
    ∧ ([(("712345678" : String), (2 : ℕ))].map Prod.snd).sum
        = repFix.rows.length :=
  ⟨by with_unfolding_all rfl,
   c4_counts_conserve_rows repFix [("712345678", 2)] [("712345678", 150)]
     (by with_unfolding_all rfl)⟩

/-- C5: the percent-repaid scalar is the guarded ratio: when total
written off is positive it is repaid / written-off * 100, otherwise it
is 0; in particular it is 0 whenever total written off is 0, whatever
the total repaid, and the division is never taken in that case. -/
theorem c5_percent_guarded (rep w aug : Table) (tot : Totals)
    (hok : process rep w = .ok (aug, tot)) :
    tot.percent_repaid
        = (if 0 < tot.total_written_off
           then tot.total_repaid_for_writeoffs / tot.total_written_off * 100
           else 0)
    ∧ (tot.total_written_off = 0 → tot.percent_repaid = 0) := by
  obtain ⟨c, s, hagg, hm, haug, twd, htwd, htot⟩ := process_ok_inv rep w aug tot hok
  subst htot
  constructor
  · rfl
  · intro h0
    have h0' : (twd.map coerceNum).sum = 0 := h0
    show (if 0 < (twd.map coerceNum).sum
        then ((getColD aug "amount repayed").map coerceNum).sum
          / (twd.map coerceNum).sum * 100
        else 0) = 0
    rw [h0']
    norm_num

/-- Witness for C5 at the scenario fixture. -/
theorem c5_witness :
    process repFix wFix = Except.ok (augFix, totFix)
    ∧ totFix.percent_repaid
        = (if 0 < totFix.total_written_off
           then totFix.total_repaid_for_writeoffs / totFix.total_written_off * 100
           else 0) :=
  ⟨by with_unfolding_all rfl,
   (c5_percent_guarded repFix wFix augFix totFix (by with_unfolding_all rfl)).1⟩

/-- C6: a missing required column is fatal. Each error message names the
missing column and the file it was expected in, and the `Except.error`
result carries no augmented table, so no partial output exists. The
repayments columns are checked first, in order. -/
theorem c6_missing_column_fatal (rep w : Table) :
    ("Phone Number" ∉ rep.cols →
      process rep w
        = .error "Expected \x27Phone Number\x27 column (column S) in Repayments.xlsx.")
    ∧ ("Phone Number" ∈ rep.cols → "Total Repaid:" ∉ rep.cols →
      process rep w
        = .error "Expected \x27Total Repaid:\x27 column in Repayments.xlsx.")
    ∧ ("Phone Number" ∈ rep.cols → "Total Repaid:" ∈ rep.cols →
        "mobile" ∉ w.cols →
      process rep w
        = .error "Expected \x27mobile\x27 column (column D) in writeoffs.xlsx.") := by
  refine ⟨fun hp => ?_, fun hp ht => ?_, fun hp ht hm => ?_⟩
  · unfold process compute_phone_aggregates
    rw [if_pos hp]
  · unfold process compute_phone_aggregates
    rw [if_neg (not_not_intro hp), if_pos ht]
  · unfold process compute_phone_aggregates
    rw [if_neg (not_not_intro hp), if_neg (not_not_intro ht)]
    dsimp only
    rw [if_pos hm]

/-- Witness for C6 on the three missing-column fixtures. -/
theorem c6_witness :
    process repNoPhone wFix
        = Except.error "Expected \x27Phone Number\x27 column (column S) in Repayments.xlsx."
    ∧ process repNoAmount wFix
        = Except.error "Expected \x27Total Repaid:\x27 column in Repayments.xlsx."
    ∧ process repFix wNoMobile
        = Except.error "Expected \x27mobile\x27 column (column D) in writeoffs.xlsx." :=
  ⟨(c6_missing_column_fatal repNoPhone wFix).1 (by decide),
   (c6_missing_column_fatal repNoAmount wFix).2.1 (by decide) (by decide),
   (c6_missing_column_fatal repFix wNoMobile).2.2 (by decide) (by decide) (by decide)⟩

/-- C3: the attached match count of every write-off row is exactly the
number of repayment rows sharing its normalised key, and the attached
amount repaid is exactly the sum of their coerced amounts; a key that
occurs in no repayment row yields count 0 and sum 0 at lookup time, not
an error. -/
theorem c3_lookup_exact (rep w aug : Table) (tot : Totals)
    (hrect : w.Rect)
    (f1 : "last9_mobile" ∉ w.cols) (f2 : "Repayment Phone Matches" ∉ w.cols)
    (f3 : "amount repayed" ∉ w.cols)
    (hok : process rep w = .ok (aug, tot)) :
    getCol aug "Repayment Phone Matches"
      = some ((writeoffKeys w).map (fun k =>
          Cell.n (((repaymentKeys rep).filter (fun x => x = k)).length)))
    ∧ getCol aug "amount repayed"
      = some ((writeoffKeys w).map (fun k =>
          Cell.q (((((repaymentKeys rep).zip (repaymentAmounts rep)).filter
            (fun p => p.1 = k)).map Prod.snd).sum)))
    ∧ ∀ k, k ∉ repaymentKeys rep →
        ((repaymentKeys rep).filter (fun x => x = k)).length = 0
        ∧ ((((repaymentKeys rep).zip (repaymentAmounts rep)).filter
            (fun p => p.1 = k)).map Prod.snd).sum = 0 := by
  obtain ⟨counts, sums, hagg, hm, haug, -⟩ := process_ok_inv rep w aug tot hok
  obtain ⟨hc, hs⟩ := compute_ok_inv rep counts sums hagg
  subst haug
  refine ⟨?_, ?_, ?_⟩
  · rw [augment_getCol_matches counts sums w hrect f1 f2 f3, hc]
    unfold repaymentKeys
    simp only [getCount_value_counts]
  · rw [augment_getCol_amount counts sums w hrect f1 f2 f3, hs]
    unfold repaymentKeys repaymentAmounts
    simp only [getSum_groupSums]
  · intro k hk
    constructor
    · rw [filter_eq_key_nil _ _ hk]
      rfl
    · rw [filter_zip_key_nil _ _ _ hk]
      rfl

/-- Witness for C3 at the scenario fixture: the one write-off row gets
match count 2, the number of repayment rows with key 712345678. -/
theorem c3_witness :
    process repFix wFix = Except.ok (augFix, totFix)
    ∧ getCol augFix "Repayment Phone Matches"
        = some ((writeoffKeys wFix).map (fun k =>
            Cell.n (((repaymentKeys repFix).filter (fun x => x = k)).length))) :=
  ⟨by with_unfolding_all rfl,
   (c3_lookup_exact repFix wFix augFix totFix (by decide) (by decide) (by decide)
     (by decide) (by with_unfolding_all rfl)).1⟩

/-- C7 as stated is false: a write-offs frame that already carries a
column named `Repayment Phone Matches` has that column overwritten in
place by pandas assignment instead of getting a new column appended, so
the output is not the input plus two appended columns and a pre-existing
field is modified. -/
theorem c7_counterexample :
    process repFixTen wFixSeven = Except.ok (augFixSeven, totFixSeven)
    ∧ augFixSeven.cols
        ≠ wFixSeven.cols ++ ["Repayment Phone Matches", "amount repayed"]
    ∧ getCol augFixSeven "Repayment Phone Matches"
        ≠ getCol wFixSeven "Repayment Phone Matches" := by
  refine ⟨by with_unfolding_all rfl, by decide, by decide⟩

/-- C7 (amended): provided the input write-offs frame has none of the
three derived column names (`last9_mobile`, `Repayment Phone Matches`,
`amount repayed`) among its columns, the augmented frame is the input
plus exactly those two new columns appended at the end in that order —
match count (an int cell) then amount repaid (a float cell) — and every
original row is preserved unchanged as the prefix of its augmented row;
the input frame itself is not mutated (the model is purely functional,
mirroring the `.copy()` at src/app.py:97). -/
theorem c7_augmented_frame_shape (rep w aug : Table) (tot : Totals)
    (hrect : w.Rect)
    (f1 : "last9_mobile" ∉ w.cols) (f2 : "Repayment Phone Matches" ∉ w.cols)
    (f3 : "amount repayed" ∉ w.cols)
    (hok : process rep w = .ok (aug, tot)) :
    ∃ counts sums,
      compute_phone_aggregates rep = .ok (counts, sums)
      ∧ aug.cols = w.cols ++ ["Repayment Phone Matches", "amount repayed"]
      ∧ aug.rows = (w.rows.zip (writeoffKeys w)).map (fun p =>
          p.1 ++ [Cell.n (getCount counts p.2), Cell.q (getSum sums p.2)]) := by
  obtain ⟨counts, sums, hagg, hm, haug, -⟩ := process_ok_inv rep w aug tot hok
  refine ⟨counts, sums, hagg, ?_, ?_⟩
  · rw [haug, augmentWriteoffs_spec counts sums w hrect f1 f2 f3]
  · rw [haug, augmentWriteoffs_spec counts sums w hrect f1 f2 f3]
    rfl

/-- Witness for the amended C7 at the scenario fixture. -/
theorem c7_witness :
    process repFix wFix = Except.ok (augFix, totFix)
    ∧ ∃ counts sums,
        compute_phone_aggregates repFix = Except.ok (counts, sums)
        ∧ augFix.cols = wFix.cols ++ ["Repayment Phone Matches", "amount repayed"]
        ∧ augFix.rows = (wFix.rows.zip (writeoffKeys wFix)).map (fun p =>
            p.1 ++ [Cell.n (getCount counts p.2), Cell.q (getSum sums p.2)]) :=
  ⟨by with_unfolding_all rfl,
   c7_augmented_frame_shape repFix wFix augFix totFix (by decide) (by decide)
     (by decide) (by decide) (by with_unfolding_all rfl)⟩

/-- C9: both derived fields are looked up by the same key, every key of
the aggregate tables comes from at least one repayment row, and both
default together, so an augmented row whose match count is 0 always has
amount repaid 0. -/
theorem c9_no_matches_no_amount (rep w aug : Table) (tot : Totals)
    (hrect : w.Rect)
    (f1 : "last9_mobile" ∉ w.cols) (f2 : "Repayment Phone Matches" ∉ w.cols)
    (f3 : "amount repayed" ∉ w.cols)
    (hok : process rep w = .ok (aug, tot))
    (p : Cell × Cell)
    (hp : p ∈ (getColD aug "Repayment Phone Matches").zip
        (getColD aug "amount repayed"))
    (hz : p.1 = Cell.n 0) :
    p.2 = Cell.q 0 := by
  obtain ⟨counts, sums, hagg, hm, haug, -⟩ := process_ok_inv rep w aug tot hok
  obtain ⟨hc, hs⟩ := compute_ok_inv rep counts sums hagg
  subst haug
  rw [getColD, augment_getCol_matches counts sums w hrect f1 f2 f3] at hp
  rw [getColD, augment_getCol_amount counts sums w hrect f1 f2 f3] at hp
  simp only [Option.getD_some] at hp
  rw [List.zip_map'] at hp
  obtain ⟨k, hkmem, hpk⟩ := List.mem_map.mp hp
  subst hpk
  simp only at hz ⊢
  injection hz with hz0
  rw [hc, getCount_value_counts] at hz0
  have hnil : (repaymentKeys rep).filter (fun x => x = k) = [] := by
    apply List.length_eq_zero.mp
    exact hz0
  have hknot : k ∉ repaymentKeys rep := by
    intro hmem
    have hkin : k ∈ (repaymentKeys rep).filter (fun x => x = k) :=
      List.mem_filter.mpr ⟨hmem, by simp⟩
    rw [hnil] at hkin
    exact absurd hkin (List.not_mem_nil k)
  rw [hs, getSum_groupSums]
  have hzip : ((List.map extract_last_nine_digits (getColD rep "Phone Number")).zip
      (List.map coerceNum (getColD rep "Total Repaid:"))).filter
        (fun p => p.1 = k) = [] :=
    filter_zip_key_nil _ _ _ hknot
  rw [hzip]
  rfl

/-- Witness for C9: on the fixture with an unmatched second write-off
row, the pair of derived cells (match count 0, amount 0) satisfies the
implication. -/
theorem c9_witness :
    process repFix wFixNine = Except.ok (augFixNine, totFixNine)
    ∧ (Cell.n 0, Cell.q 0)
        ∈ (getColD augFixNine "Repayment Phone Matches").zip
            (getColD augFixNine "amount repayed")
    ∧ (Cell.n 0, Cell.q 0).2 = Cell.q 0 := by
  have hmem : (Cell.n 0, Cell.q 0)
      ∈ (getColD augFixNine "Repayment Phone Matches").zip
          (getColD augFixNine "amount repayed") := by
    have hz : (getColD augFixNine "Repayment Phone Matches").zip
          (getColD augFixNine "amount repayed")
        = [(Cell.n 2, Cell.q 150), (Cell.n 0, Cell.q 0)] := by
      with_unfolding_all rfl
    rw [hz]
    simp
  exact ⟨by with_unfolding_all rfl, hmem,
    c9_no_matches_no_amount repFix wFixNine augFixNine totFixNine (by decide)
      (by decide) (by decide) (by decide) (by with_unfolding_all rfl)
      (Cell.n 0, Cell.q 0) hmem rfl⟩

end WriteOffs
